import Mathlib

/-!
Verification of the `smell-baron` process supervisor (src/main.c) against its
natural-language specification.  The C program is shallowly embedded: the
supervisor's pure decision logic (argument parsing, watch-set derivation,
exit-code aggregation) becomes Lean functions, and the effectful control flow
of `main` becomes a function from an input record (parsed commands plus an
oracle supplying the scheduler-dependent data: reap order, signal arrivals,
assigned pids, alarm timing) to the list of externally visible events it
performs together with its final exit status.
-/

namespace SmellBaron

/-- `INT_MAX` from `<limits.h>`; `error_code_idx` is initialised to it in
`wait_for_requested_commands_to_exit`. -/
def INT_MAX : Nat := 2147483647

/-- Model of the C `Cmd` struct (src/main.c lines 25-36).  The `pid` field is
not stored here: it is assigned at launch time and is modelled by the `pidOf`
oracle of `MainInput`. -/
structure Cmd where
  args : List String
  watch : Bool
  configuring : Bool
deriving DecidableEq

instance : Inhabited Cmd := ⟨⟨[], false, false⟩⟩

instance {ε α : Type _} [DecidableEq ε] [DecidableEq α] :
    DecidableEq (Except ε α) := fun a b =>
  match a, b with
  | .error x, .error y =>
    if h : x = y then isTrue (h ▸ rfl)
    else isFalse (fun hc => h (by injection hc))
  | .error _, .ok _ => isFalse (fun hc => Except.noConfusion hc)
  | .ok _, .error _ => isFalse (fun hc => Except.noConfusion hc)
  | .ok x, .ok y =>
    if h : x = y then isTrue (h ▸ rfl)
    else isFalse (fun hc => h (by injection hc))

/-- One iteration of the blocking-reap loop, as seen by the supervisor.
`runningBefore` / `runningAfter` are the values of the volatile `running` flag
at the two checks surrounding the `waitpid` call (lines 58 and 68).
`waited = none` models `waitpid` returning `-1` (error / EINTR);
`waited = some (pid, none)` models a reaped process that did not satisfy
`WIFEXITED`; `waited = some (pid, some s)` models a normal exit with
`WEXITSTATUS = s`. -/
structure Iter where
  runningBefore : Bool
  waited : Option (Nat × Option Nat)
  runningAfter : Bool
deriving DecidableEq

/-- The locals of `wait_for_requested_commands_to_exit`
(src/main.c lines 51-53). -/
structure WaitState where
  cmdsLeft : Int
  errorCode : Nat
  errorCodeIdx : Nat
deriving DecidableEq

/-- Initial state: `cmds_left = n_watch_cmds`, `error_code = 0`,
`error_code_idx = INT_MAX` (lines 51-53). -/
def initWaitState (nWatch : Nat) : WaitState :=
  { cmdsLeft := (nWatch : Int), errorCode := 0, errorCodeIdx := INT_MAX }

/-- The body of the scan over `watch_cmds` (src/main.c lines 70-93) applied to
one successful `waitpid` result.  Returns the updated state and `some code`
when the function returns (`--cmds_left == 0`, line 84). -/
def handleReap (watchPids : List Nat) (st : WaitState) (pid : Nat)
    (wstatus : Option Nat) : WaitState × Option Nat :=
  match List.findIdx? (fun p => p == pid) watchPids with
  | none => (st, none)
  | some i =>
    let st1 :=
      match wstatus with
      | some es =>
        if es ≠ 0 ∧ i < st.errorCodeIdx then
          { st with errorCode := es, errorCodeIdx := i }
        else st
      | none => st
    let st2 := { st1 with cmdsLeft := st1.cmdsLeft - 1 }
    if st2.cmdsLeft = 0 then (st2, some st2.errorCode) else (st2, none)

/-- Outcome of running the loop against a finite trace of iterations:
either the loop returned a code, or the trace is exhausted and the loop is
still blocked in `waitpid` with the given state. -/
inductive WaitOutcome where
  | blocked (st : WaitState)
  | returned (code : Nat)
deriving DecidableEq

/-- The `for (;;)` loop of `wait_for_requested_commands_to_exit`
(src/main.c lines 55-94), driven by a trace of iterations. -/
def runWaitAux (watchPids : List Nat) (st : WaitState) : List Iter → WaitOutcome
  | [] => .blocked st
  | it :: rest =>
    if it.runningBefore = false then .returned st.errorCode
    else if it.runningAfter = false then .returned st.errorCode
    else
      match it.waited with
      | none => runWaitAux watchPids st rest
      | some (pid, wstatus) =>
        match handleReap watchPids st pid wstatus with
        | (st', none) => runWaitAux watchPids st' rest
        | (_, some c) => .returned c

/-- `wait_for_requested_commands_to_exit` (src/main.c lines 50-97):
`some code` when the loop returns within the trace, `none` when it is still
blocked after the trace is exhausted. -/
def wait_for_requested_commands_to_exit (nWatch : Nat) (watchPids : List Nat)
    (trace : List Iter) : Option Nat :=
  match runWaitAux watchPids (initWaitState nWatch) trace with
  | .returned c => some c
  | .blocked _ => none

/-- An iteration reaping `pid` with normal exit status `es`, no signal
observed at either `running` check. -/
def reapIter (pid : Nat) (es : Nat) : Iter :=
  { runningBefore := true, waited := some (pid, some es), runningAfter := true }

/-- Reap trace induced by reaping the given `(pid, status)` commands in the
order given by `perm` (a list of indices into `cmds`). -/
def traceOfPerm (cmds : List (Nat × Nat)) (perm : List Nat) : List Iter :=
  perm.map (fun i => reapIter (cmds.getD i (0, 0)).1 (cmds.getD i (0, 0)).2)

/-- Specification-level aggregate exit code: the status of the first (lowest
CommandSet index) watched command whose normal exit status is nonzero, `0`
when every status is zero. -/
def aggregate_exit_code (statuses : List Nat) : Nat :=
  match statuses.find? (fun s => s != 0) with
  | some s => s
  | none => 0

/-- The update the loop body performs on the `(error_code, error_code_idx)`
pair when the watched command at index `j` is reaped (src/main.c lines
76-79), expressed as a fold step over reap order. -/
def upd (statuses : List Nat) (b : Nat × Nat) (j : Nat) : Nat × Nat :=
  if statuses.getD j 0 ≠ 0 ∧ j < b.2 then (statuses.getD j 0, j) else b

/-- Does the iteration's `waitpid` result match a pid in the watched list?
(the scan of src/main.c lines 71-93 finds a match). -/
def iterMatches (watchPids : List Nat) (it : Iter) : Bool :=
  match it.waited with
  | some (pid, _) => (List.findIdx? (fun p => p == pid) watchPids).isSome
  | none => false

/-- Number of iterations of the trace whose reaped pid belongs to a watched
command (the reaps that decrement `cmds_left`). -/
def matchedCount (watchPids : List Nat) (trace : List Iter) : Nat :=
  (trace.filter (iterMatches watchPids)).length

/-- `true` when the `running` flag stays true at every check in the trace
(no termination signal is observed). -/
def allRunning (trace : List Iter) : Bool :=
  trace.all (fun it => it.runningBefore && it.runningAfter)

/-- Count of commands explicitly marked `-f` (src/main.c lines 267-271). -/
def explicitWatchCount (cmds : List Cmd) : Nat :=
  (cmds.filter (·.watch)).length

/-- The default-watch rule of `main` (src/main.c lines 273-281): if no
command carries `-f`, every non-configuring command's `watch` flag is set. -/
def derive_watch (cmds : List Cmd) : List Cmd :=
  if explicitWatchCount cmds = 0 then
    cmds.map (fun c => if !c.configuring then { c with watch := true } else c)
  else cmds

/-- Indices (CommandSet positions) of the commands satisfying `p`, in
CommandSet order. -/
def idxsWhere (cmds : List Cmd) (p : Cmd → Bool) : List Nat :=
  (List.range cmds.length).filter (fun i => p (cmds.getD i default))

/-- Indices of the configuring commands, in CommandSet order (the launch
order of `run_configure_cmds`, src/main.c lines 167-173). -/
def cfgIdxs (cmds : List Cmd) : List Nat :=
  idxsWhere cmds (·.configuring)

/-- Indices of the non-configuring commands, in CommandSet order (the
launch order of `run_cmds`, src/main.c lines 186-191). -/
def mainIdxs (cmds : List Cmd) : List Nat :=
  idxsWhere cmds (fun c => !c.configuring)

/-- Indices of the watched commands, in CommandSet order (the `watch_cmds`
array built in src/main.c lines 283-290). -/
def watchIdxs (cmds : List Cmd) : List Nat :=
  idxsWhere cmds (·.watch)

/-- `on_alarm` (src/main.c lines 124-127): the process exits with the value
of the static `alarm_exit_code`. -/
def on_alarm (alarmExitCode : Nat) : Nat := alarmExitCode

/-- `wait_for_all_processes_to_exit` (src/main.c lines 99-107) together with
the pending alarm: on entry the static `alarm_exit_code` is set to
`error_code`; if the `SIGALRM` armed by `main` fires before the `ECHILD`
drain finishes, `on_alarm` terminates the process with `alarm_exit_code`,
otherwise the drain completes and `main` later returns `error_code`.
The result is the process's final exit status. -/
def shutdown_drain (error_code : Nat) (timeoutFires : Bool) : Nat :=
  let alarm_exit_code := error_code
  if timeoutFires then on_alarm alarm_exit_code else error_code

/-- Externally visible actions of `main`, in program order. -/
inductive MainEvent where
  /-- `install_term_and_int_handlers` (line 292). -/
  | installHandlers
  /-- `run_proc` launching the command at CommandSet index `i`. -/
  | launch (i : Nat)
  /-- the `ECHILD` drain of `run_configure_cmds` (lines 175-183). -/
  | configureDrain
  /-- `remove_term_and_int_handlers` (line 300). -/
  | removeHandlers
  /-- `alarm(WAIT_FOR_PROC_DEATH_TIMEOUT)` with `error_code` as the pending
  forced-exit code (line 301). -/
  | armAlarm (code : Nat)
  /-- `kill(target, SIGTERM)` (line 302): `target = -1` when
  `signal_everything`, else `0` (own process group). -/
  | broadcast (target : Int)
  /-- `wait_for_all_processes_to_exit` (line 303). -/
  | finalDrain
deriving DecidableEq

/-- Input to one run of `main` after argument parsing: the parsed commands
and options, plus the oracle data the OS supplies during the run
(`running` at the post-configure check, the reap trace of the supervision
loop, whether the shutdown alarm fires, and the pid each launched command
receives, indexed by CommandSet position). -/
structure MainInput where
  cmds : List Cmd
  signalEverything : Bool
  runningAfterConfigure : Bool
  trace : List Iter
  timeoutFires : Bool
  pidOf : Nat → Nat

/-- `main` from `install_term_and_int_handlers` onward (src/main.c lines
292-310): returns the event list in program order and the process's final
exit status. `none` models a run that never produces an exit status within
the supplied trace (the loop still blocked), or — on the early-signal path —
`main` returning the never-assigned local `error_code` (an indeterminate
value, line 294/310). -/
def mainModel (inp : MainInput) : List MainEvent × Option Nat :=
  let cmds := derive_watch inp.cmds
  let pre := MainEvent.installHandlers :: (cfgIdxs cmds).map MainEvent.launch
      ++ (if (cfgIdxs cmds).isEmpty then [] else [MainEvent.configureDrain])
  if inp.runningAfterConfigure then
    let launches := (mainIdxs cmds).map MainEvent.launch
    let watchPids := (watchIdxs cmds).map inp.pidOf
    match wait_for_requested_commands_to_exit (watchIdxs cmds).length
        watchPids inp.trace with
    | none => (pre ++ launches, none)
    | some code =>
      let target : Int := if inp.signalEverything then -1 else 0
      let events := pre ++ launches
          ++ [MainEvent.removeHandlers, MainEvent.armAlarm code,
              MainEvent.broadcast target, MainEvent.finalDrain]
      (events, some (shutdown_drain code inp.timeoutFires))
  else (pre, none)

/-- Is the token an option element for `getopt` — it starts with `-` and has
at least one following character (a bare `-` is a non-option)? -/
def isOptElem (s : String) : Bool :=
  match s.toList with
  | '-' :: _ :: _ => true
  | _ => false

/-- The `switch` of `parse_cmd_args` (src/main.c lines 197-213) applied to
the option characters of one cluster: `a` requires the init role (`getpid()
== 1`, modelled by `isInit`) and otherwise exits 1 (lines 198-204); `c` and
`f` set the command's flags; any other character is `getopt`'s `?`, which
the switch ignores.  Accumulates `(signal_everything, configuring, watch)`. -/
def applyOptChars (isInit : Bool) (sigAll c f : Bool) :
    List Char → Except Nat (Bool × Bool × Bool)
  | [] => .ok (sigAll, c, f)
  | ch :: rest =>
    if ch = 'a' then
      if isInit then applyOptChars isInit true c f rest else .error 1
    else if ch = 'c' then applyOptChars isInit sigAll true f rest
    else if ch = 'f' then applyOptChars isInit sigAll c true rest
    else applyOptChars isInit sigAll c f rest

/-- The token-level scan of `parse_argv` together with the per-group
`parse_cmd_args` calls (src/main.c lines 193-255), merged into one
structural pass over the tokens.  `inOpts` is true while `getopt` is still
scanning the current group's leading option elements.  Because each
`parse_cmd_args` call receives `argc = args_end - arg_it` and
`argv = arg_it - 1`, `getopt` examines only `argv[1..argc-1]` and therefore
never treats the final token of the whole command line as an option — hence
the `rest != []` guards.  When the `getopt` scan of a group ends, using `-c`
together with `-f` on that group exits 1 (lines 216-219).  A literal `---`
token ends the group's argv (line 243); a `---` with nothing after it exits
1 (lines 245-248); otherwise the next group is parsed with fresh per-command
flags while `signal_everything` keeps accumulating.  `acc` holds the current
group's argv so far, in reverse. -/
def parse_argv_loop (isInit : Bool) (sigAll c f inOpts : Bool)
    (acc : List String) : List String → Except Nat (List Cmd × Bool)
  | [] => .ok ([{ args := acc.reverse, watch := f, configuring := c }], sigAll)
  | t :: rest =>
    if inOpts && rest != [] && t == "--" then
      if c && f then .error 1
      else parse_argv_loop isInit sigAll c f false [] rest
    else if inOpts && rest != [] && isOptElem t then
      match applyOptChars isInit sigAll c f (t.toList.drop 1) with
      | .error e => .error e
      | .ok (s', c', f') => parse_argv_loop isInit s' c' f' true acc rest
    else if inOpts && c && f then .error 1
    else if t == "---" then
      if rest = [] then .error 1
      else
        match parse_argv_loop isInit sigAll false false true [] rest with
        | .error e => .error e
        | .ok (cmds, s'') =>
          .ok ({ args := acc.reverse, watch := f, configuring := c } :: cmds, s'')
    else parse_argv_loop isInit sigAll c f false (t :: acc) rest

/-- `parse_argv` (src/main.c lines 224-255) on the tokens after the program
name: `signal_everything` starts false (line 235), each command's flags
start false (`calloc`, line 234), and parsing starts in the `getopt` scan of
the first group (`argv + 1`, line 236). -/
def parse_argv (isInit : Bool) (argvTail : List String) :
    Except Nat (List Cmd × Bool) :=
  parse_argv_loop isInit false false false true [] argvTail

/-- The run-time oracle data `main` consumes (see `MainInput`). -/
structure Oracles where
  runningAfterConfigure : Bool
  trace : List Iter
  timeoutFires : Bool
  pidOf : Nat → Nat

/-- `main` (src/main.c lines 257-311): `argc == 1` prints usage and returns
1 before parsing (lines 258-261); a usage error inside parsing exits with
its code; otherwise the supervision run of `mainModel` happens.  The event
list is empty on every error path: no process is ever launched there. -/
def smellBaronMain (isInit : Bool) (argv : List String) (orc : Oracles) :
    List MainEvent × Option Nat :=
  if argv.length = 1 then ([], some 1)
  else
    match parse_argv isInit (argv.drop 1) with
    | .error e => ([], some e)
    | .ok (cmds, sigAll) =>
      mainModel
        { cmds := cmds, signalEverything := sigAll,
          runningAfterConfigure := orc.runningAfterConfigure,
          trace := orc.trace, timeoutFires := orc.timeoutFires,
          pidOf := orc.pidOf }

/-! ## Lemmas about the watched-exit loop -/

theorem getD_map_fst (cmds : List (Nat × Nat)) :
    ∀ (j : Nat), j < cmds.length →
      (cmds.map Prod.fst).getD j 0 = (cmds.getD j (0, 0)).1 := by
  induction cmds with
  | nil => intro j hj; simp at hj
  | cons a l ih =>
    intro j hj
    cases j with
    | zero => rfl
    | succ j => exact ih j (by simpa using hj)

theorem getD_map_snd (cmds : List (Nat × Nat)) :
    ∀ (j : Nat), j < cmds.length →
      (cmds.map Prod.snd).getD j 0 = (cmds.getD j (0, 0)).2 := by
  induction cmds with
  | nil => intro j hj; simp at hj
  | cons a l ih =>
    intro j hj
    cases j with
    | zero => rfl
    | succ j => exact ih j (by simpa using hj)

/-- On a duplicate-free pid list, the linear scan of lines 71-93 finds a
watched pid exactly at its own index. -/
theorem findIdx?_getD_of_nodup (l : List Nat) :
    ∀ (j : Nat), j < l.length → l.Nodup →
      List.findIdx? (fun p => p == l.getD j 0) l = some j := by
  induction l with
  | nil => intro j hj; simp at hj
  | cons a l ih =>
    intro j hj hnd
    cases j with
    | zero => simp
    | succ j =>
      have hjl : j < l.length := by simpa using hj
      show List.findIdx? (fun p => p == l.getD j 0) (a :: l) = some (j + 1)
      have hmem : l.getD j 0 ∈ l := by
        have := List.getD_eq_getElem?_getD l j 0
        rw [this, List.getElem?_eq_getElem hjl]
        exact List.getElem_mem hjl
      have hane : (a == l.getD j 0) = false := by
        simp only [beq_eq_false_iff_ne, ne_eq]
        intro h
        exact (List.nodup_cons.mp hnd).1 (h ▸ hmem)
      rw [List.findIdx?_cons, hane]
      simp only [Bool.false_eq_true, if_false, List.findIdx?_succ]
      rw [ih j hjl (List.nodup_cons.mp hnd).2]
      rfl

/-- Reaping the watched command at index `j` updates the
`(error_code, error_code_idx)` pair by `upd`, decrements `cmds_left`, and
returns exactly when the counter hits zero. -/
theorem handleReap_watched (cmds : List (Nat × Nat)) (st : WaitState)
    (j : Nat) (hj : j < cmds.length)
    (hnodup : (cmds.map Prod.fst).Nodup) :
    handleReap (cmds.map Prod.fst) st ((cmds.getD j (0, 0)).1)
        (some ((cmds.getD j (0, 0)).2)) =
      (⟨st.cmdsLeft - 1,
        (upd (cmds.map Prod.snd) (st.errorCode, st.errorCodeIdx) j).1,
        (upd (cmds.map Prod.snd) (st.errorCode, st.errorCodeIdx) j).2⟩,
       if st.cmdsLeft - 1 = 0 then
         some (upd (cmds.map Prod.snd) (st.errorCode, st.errorCodeIdx) j).1
       else none) := by
  have hjlen : j < (cmds.map Prod.fst).length := by simpa using hj
  have hfind := findIdx?_getD_of_nodup (cmds.map Prod.fst) j hjlen hnodup
  rw [getD_map_fst cmds j hj] at hfind
  unfold handleReap upd
  rw [hfind, getD_map_snd cmds j hj]
  by_cases hc : (cmds.getD j (0, 0)).2 ≠ 0 ∧ j < st.errorCodeIdx
  · simp only [if_pos hc]
    split_ifs <;> rfl
  · simp only [if_neg hc]
    split_ifs <;> rfl

/-- Running the loop over a nonempty reap order `rem` of watched indices,
with `cmds_left` equal to the number of pending reaps, returns the first
component of the fold of the loop's update over `rem`. -/
theorem runWaitAux_traceOfPerm (cmds : List (Nat × Nat))
    (hnodup : (cmds.map Prod.fst).Nodup) :
    ∀ (rem : List Nat) (st : WaitState), rem ≠ [] →
      (∀ j ∈ rem, j < cmds.length) →
      st.cmdsLeft = (rem.length : Int) →
      runWaitAux (cmds.map Prod.fst) st (traceOfPerm cmds rem) =
        .returned
          (rem.foldl (upd (cmds.map Prod.snd))
            (st.errorCode, st.errorCodeIdx)).1 := by
  intro rem
  induction rem with
  | nil => intro st hne; exact absurd rfl hne
  | cons j rest ih =>
    intro st _ hlt hcl
    have hj : j < cmds.length := hlt j (List.mem_cons_self j rest)
    unfold traceOfPerm at *
    simp only [List.map_cons]
    unfold runWaitAux reapIter
    simp only [Bool.true_eq_false, if_neg, reduceCtorEq, reduceIte]
    rw [handleReap_watched cmds st j hj hnodup]
    cases rest with
    | nil =>
      have : st.cmdsLeft - 1 = 0 := by
        rw [hcl]; simp
      rw [if_pos this]
      simp [List.foldl]
    | cons r rest' =>
      have hne1 : st.cmdsLeft - 1 ≠ 0 := by
        rw [hcl]
        simp only [List.length_cons]
        omega
      rw [if_neg hne1]
      dsimp only
      have := ih ⟨st.cmdsLeft - 1,
          (upd (cmds.map Prod.snd) (st.errorCode, st.errorCodeIdx) j).1,
          (upd (cmds.map Prod.snd) (st.errorCode, st.errorCodeIdx) j).2⟩
        (by simp) (fun i hi => hlt i (List.mem_cons_of_mem j hi))
        (by rw [hcl]; simp only [List.length_cons]; push_cast; ring)
      simp only [List.map_cons] at this
      rw [List.foldl_cons]
      exact this

/-- The loop's update records `(status, index)` when the status is nonzero
and the index beats the recorded one. -/
theorem upd_pos (s : List Nat) (b : Nat × Nat) (j : Nat)
    (h1 : s.getD j 0 ≠ 0) (h2 : j < b.2) :
    upd s b j = (s.getD j 0, j) := by
  unfold upd; exact if_pos ⟨h1, h2⟩

/-- The loop's update leaves the pair alone when the test fails. -/
theorem upd_neg (s : List Nat) (b : Nat × Nat) (j : Nat)
    (h : ¬(s.getD j 0 ≠ 0 ∧ j < b.2)) :
    upd s b j = b := by
  unfold upd; exact if_neg h

/-- The recorded index never increases. -/
theorem upd_2_le (s : List Nat) (b : Nat × Nat) (j : Nat) :
    (upd s b j).2 ≤ b.2 := by
  unfold upd
  split_ifs with h
  · exact Nat.le_of_lt h.2
  · exact Nat.le_refl _

/-- The loop's update commutes with itself: folding it over any two reap
orders of the same reaps yields the same `(error_code, error_code_idx)`. -/
theorem upd_comm (s : List Nat) (z : Nat × Nat) (x y : Nat) :
    upd s (upd s z x) y = upd s (upd s z y) x := by
  by_cases hxy : x = y
  · subst hxy; rfl
  by_cases hx : s.getD x 0 ≠ 0
  case neg =>
    rw [upd_neg s z x (by tauto), upd_neg s (upd s z y) x (by tauto)]
  by_cases hy : s.getD y 0 ≠ 0
  case neg =>
    rw [upd_neg s (upd s z x) y (by tauto), upd_neg s z y (by tauto)]
  by_cases hxz : x < z.2
  case neg =>
    have hle : (upd s z y).2 ≤ z.2 := upd_2_le s z y
    rw [upd_neg s z x (by intro hc; exact hxz hc.2),
      upd_neg s (upd s z y) x (by intro hc; exact hxz (lt_of_lt_of_le hc.2 hle))]
  by_cases hyz : y < z.2
  case neg =>
    have hle : (upd s z x).2 ≤ z.2 := upd_2_le s z x
    rw [upd_neg s z y (by intro hc; exact hyz hc.2),
      upd_neg s (upd s z x) y (by intro hc; exact hyz (lt_of_lt_of_le hc.2 hle))]
  rw [upd_pos s z x hx hxz, upd_pos s z y hy hyz]
  rcases Nat.lt_or_ge x y with hlt | hge
  · rw [upd_neg s (s.getD x 0, x) y (by simp; omega), upd_pos s (s.getD y 0, y) x hx (by simpa using hlt)]
  · have hlt' : y < x := by omega
    rw [upd_pos s (s.getD x 0, x) y hy (by simpa using hlt'), upd_neg s (s.getD y 0, y) x (by simp; omega)]

/-- Folding the loop's update over indices `k, k+1, ...` cannot displace an
already-recorded index `≤ k` (the `i < error_code_idx` test fails). -/
theorem foldl_upd_absorb (s : List Nat) :
    ∀ (m k : Nat) (b : Nat × Nat), b.2 ≤ k →
      List.foldl (upd s) b (List.range' k m) = b := by
  intro m
  induction m with
  | zero => intro k b _; rfl
  | succ m ih =>
    intro k b hb
    rw [List.range'_succ]
    simp only [List.foldl_cons]
    rw [show upd s b k = b by unfold upd; rw [if_neg (by simp; omega)]]
    exact ih (k + 1) b (by omega)

/-- Folding the loop's update in increasing index order computes the status
of the first nonzero entry (the specification's aggregate exit code). -/
theorem foldl_upd_firstNZ (s : List Nat) :
    ∀ (l : List Nat) (k : Nat), k + l.length ≤ INT_MAX →
      (∀ j, j < l.length → s.getD (k + j) 0 = l.getD j 0) →
      (List.foldl (upd s) (0, INT_MAX) (List.range' k l.length)).1 =
        aggregate_exit_code l := by
  intro l
  induction l with
  | nil => intro k _ _; rfl
  | cons a l ih =>
    intro k hk hj
    simp only [List.length_cons] at hk
    have ha : s.getD k 0 = a := by
      have := hj 0 (by simp)
      simpa using this
    simp only [List.length_cons]
    rw [List.range'_succ]
    simp only [List.foldl_cons]
    by_cases hanz : a ≠ 0
    · rw [show upd s (0, INT_MAX) k = (a, k) by
        unfold upd; rw [ha, if_pos ⟨hanz, by unfold INT_MAX at hk ⊢; omega⟩]]
      rw [foldl_upd_absorb s l.length (k + 1) (a, k) (by simp)]
      unfold aggregate_exit_code
      rw [List.find?_cons_of_pos _ (by simpa using hanz)]
    · push_neg at hanz
      subst hanz
      rw [show upd s (0, INT_MAX) k = (0, INT_MAX) by
        unfold upd; rw [ha]; simp]
      rw [ih (k + 1) (by omega)
        (fun j hjl => by
          have := hj (j + 1) (by simpa using Nat.succ_lt_succ hjl)
          rw [show k + 1 + j = k + (j + 1) by omega]
          simpa using this)]
      unfold aggregate_exit_code
      rw [List.find?_cons_of_neg _ (by simp)]

/-- General form of the exit-code aggregation property: for watched commands
`cmds = [(pid_0, status_0), …]` (distinct pids, every one exiting normally),
the loop run over the reaps in any order `perm` returns the status of the
lowest-index command with nonzero status, or `0` if none. -/
theorem waitLoop_perm_aggregate (cmds : List (Nat × Nat)) (perm : List Nat)
    (hne : cmds ≠ []) (hmax : cmds.length ≤ INT_MAX)
    (hnodup : (cmds.map Prod.fst).Nodup)
    (hperm : perm.Perm (List.range cmds.length)) :
    wait_for_requested_commands_to_exit cmds.length (cmds.map Prod.fst)
        (traceOfPerm cmds perm) =
      some (aggregate_exit_code (cmds.map Prod.snd)) := by
  have hlen : perm.length = cmds.length := by
    have := hperm.length_eq
    simpa using this
  have hpos : 0 < cmds.length := List.length_pos.mpr hne
  have hpne : perm ≠ [] := by
    intro h
    subst h
    simp at hlen
    omega
  have hmem : ∀ j ∈ perm, j < cmds.length := by
    intro j hj
    have := hperm.mem_iff.mp hj
    simpa [List.mem_range] using this
  have hrun := runWaitAux_traceOfPerm cmds hnodup perm (initWaitState cmds.length)
    hpne hmem (by simp [initWaitState, hlen])
  unfold wait_for_requested_commands_to_exit
  rw [hrun]
  have hcomm : ∀ x ∈ perm, ∀ y ∈ perm, ∀ (z : Nat × Nat),
      upd (cmds.map Prod.snd) (upd (cmds.map Prod.snd) z x) y
        = upd (cmds.map Prod.snd) (upd (cmds.map Prod.snd) z y) x :=
    fun x _ y _ z => upd_comm (cmds.map Prod.snd) z x y
  have hperm' := hperm.foldl_eq' hcomm
      ((initWaitState cmds.length).errorCode, (initWaitState cmds.length).errorCodeIdx)
  rw [hperm']
  have hfold := foldl_upd_firstNZ (cmds.map Prod.snd) (cmds.map Prod.snd) 0
    (by simpa using hmax) (fun j _ => by simp)
  rw [show List.range cmds.length
      = List.range' 0 (cmds.map Prod.snd).length by
    rw [List.range_eq_range', List.length_map]]
  rw [show ((initWaitState cmds.length).errorCode,
      (initWaitState cmds.length).errorCodeIdx) = ((0 : Nat), INT_MAX) from rfl]
  rw [hfold]

/-- C1: for every completed run of the main supervision loop, the exit code
it returns equals the exit status of the lowest-CommandSet-index watched
command that terminated normally with a nonzero status (0 if none did),
regardless of the order in which the watched commands' exits are reaped. -/
theorem claim_C1_lowest_index_aggregate (cmds : List (Nat × Nat))
    (perm : List Nat) (hne : cmds ≠ []) (hmax : cmds.length ≤ INT_MAX)
    (hnodup : (cmds.map Prod.fst).Nodup)
    (hperm : perm.Perm (List.range cmds.length)) :
    wait_for_requested_commands_to_exit cmds.length (cmds.map Prod.fst)
        (traceOfPerm cmds perm) =
      some (aggregate_exit_code (cmds.map Prod.snd)) :=
  waitLoop_perm_aggregate cmds perm hne hmax hnodup hperm

/-- Witness for C1: commands `[(pid 10, status 2), (pid 11, status 3)]`
reaped in reverse order still yield exit code 2 (the lowest-index nonzero
status). -/
theorem claim_C1_lowest_index_aggregate_witness :
    ([((10 : Nat), (2 : Nat)), (11, 3)] ≠ ([] : List (Nat × Nat))) ∧
    wait_for_requested_commands_to_exit 2 [10, 11]
        (traceOfPerm [(10, 2), (11, 3)] [1, 0]) = some 2 :=
  ⟨by decide,
    (claim_C1_lowest_index_aggregate [(10, 2), (11, 3)] [1, 0]
      (by decide) (by decide) (by decide) (by decide)).trans (by decide)⟩

/-- C2 counterexample: watched commands at indices 0 and 1 with pids 10, 11
and statuses 2, 3.  Pid 11 (index 1, status 3) is reaped first, so by the
claim the recorded exit code would be 3 and would never be overridden; the
loop actually returns 2, the status of the lower-index command reaped
later. -/
theorem claim_C2_counterexample :
    wait_for_requested_commands_to_exit 2 [10, 11]
        [reapIter 11 3, reapIter 10 2] = some 2 ∧ (2 : Nat) ≠ 3 :=
  ⟨by decide, by decide⟩

/-- C2 (amended): the recorded exit code is the nonzero normal exit status
of the lowest-CommandSet-index watched command, regardless of reap order: a
nonzero exit reaped later from a lower-index watched command overrides an
earlier-recorded one, and a nonzero exit from a higher-index watched
command never overrides it. -/
theorem claim_C2_amended_lowest_index_overrides
    (p1 p2 s1 s2 : Nat) (hp : p1 ≠ p2) (h1 : s1 ≠ 0) :
    wait_for_requested_commands_to_exit 2 [p1, p2]
        [reapIter p2 s2, reapIter p1 s1] = some s1 ∧
    wait_for_requested_commands_to_exit 2 [p1, p2]
        [reapIter p1 s1, reapIter p2 s2] = some s1 := by
  have hagg : aggregate_exit_code (List.map Prod.snd [(p1, s1), (p2, s2)])
      = s1 := by
    show aggregate_exit_code [s1, s2] = s1
    unfold aggregate_exit_code
    rw [List.find?_cons_of_pos _ (by simpa using h1)]
  have hnodup : (List.map Prod.fst [(p1, s1), (p2, s2)]).Nodup := by
    simp [hp]
  constructor
  · have h := waitLoop_perm_aggregate [(p1, s1), (p2, s2)] [1, 0]
      (by simp) (by show (2 : Nat) ≤ INT_MAX; decide) hnodup
      (by show [1, 0].Perm (List.range 2); decide)
    rw [hagg] at h
    exact h
  · have h := waitLoop_perm_aggregate [(p1, s1), (p2, s2)] [0, 1]
      (by simp) (by show (2 : Nat) ≤ INT_MAX; decide) hnodup
      (by show [0, 1].Perm (List.range 2); decide)
    rw [hagg] at h
    exact h

/-- Witness for the amended C2: pids 10 and 11 with statuses 2 and 3, in
both reap orders, give exit code 2. -/
theorem claim_C2_amended_lowest_index_overrides_witness :
    ((10 : Nat) ≠ 11) ∧
    (wait_for_requested_commands_to_exit 2 [10, 11]
        [reapIter 11 3, reapIter 10 2] = some 2 ∧
     wait_for_requested_commands_to_exit 2 [10, 11]
        [reapIter 10 2, reapIter 11 3] = some 2) :=
  ⟨by decide, claim_C2_amended_lowest_index_overrides 10 11 2 3
    (by decide) (by decide)⟩

/-- A reap whose pid is not in the watched list leaves the loop state
untouched (the scan of lines 71-93 matches nothing). -/
theorem handleReap_unmatched (watchPids : List Nat) (st : WaitState)
    (pid : Nat) (ws : Option Nat)
    (hfind : List.findIdx? (fun p => p == pid) watchPids = none) :
    handleReap watchPids st pid ws = (st, none) := by
  unfold handleReap
  rw [hfind]

/-- A matched reap while more than one watched command is pending
decrements `cmds_left` and continues the loop. -/
theorem handleReap_matched_cont (watchPids : List Nat) (st : WaitState)
    (pid : Nat) (ws : Option Nat) (i : Nat)
    (hfind : List.findIdx? (fun p => p == pid) watchPids = some i)
    (hne : st.cmdsLeft - 1 ≠ 0) :
    ∃ st', handleReap watchPids st pid ws = (st', none)
      ∧ st'.cmdsLeft = st.cmdsLeft - 1 := by
  unfold handleReap
  rw [hfind]
  cases ws with
  | none =>
    dsimp only
    split_ifs with h
    · exact absurd h hne
    · exact ⟨_, rfl, rfl⟩
  | some es =>
    dsimp only
    by_cases hc : es ≠ 0 ∧ i < st.errorCodeIdx
    · simp only [if_pos hc]
      split_ifs with h
      · exact absurd h hne
      · exact ⟨_, rfl, rfl⟩
    · simp only [if_neg hc]
      split_ifs with h
      · exact absurd h hne
      · exact ⟨_, rfl, rfl⟩

/-- A matched reap of the last pending watched command makes the function
return. -/
theorem handleReap_matched_ret (watchPids : List Nat) (st : WaitState)
    (pid : Nat) (ws : Option Nat) (i : Nat)
    (hfind : List.findIdx? (fun p => p == pid) watchPids = some i)
    (heq : st.cmdsLeft - 1 = 0) :
    ∃ st', handleReap watchPids st pid ws = (st', some st'.errorCode)
      ∧ st'.cmdsLeft = st.cmdsLeft - 1 := by
  unfold handleReap
  rw [hfind]
  cases ws with
  | none =>
    dsimp only
    rw [if_pos heq]
    exact ⟨_, rfl, rfl⟩
  | some es =>
    dsimp only
    by_cases hc : es ≠ 0 ∧ i < st.errorCodeIdx
    · simp only [if_pos hc]
      rw [if_pos heq]
      exact ⟨_, rfl, rfl⟩
    · simp only [if_neg hc]
      rw [if_pos heq]
      exact ⟨_, rfl, rfl⟩

theorem matchedCount_cons (watchPids : List Nat) (it : Iter)
    (tr : List Iter) :
    matchedCount watchPids (it :: tr)
      = (if iterMatches watchPids it then 1 else 0)
        + matchedCount watchPids tr := by
  unfold matchedCount
  rw [List.filter_cons]
  split_ifs with h
  · simp only [List.length_cons]
    omega
  · simp

/-- Splitting `allRunning` at a cons. -/
theorem allRunning_cons (it : Iter) (tr : List Iter) :
    allRunning (it :: tr) = true ↔
      it.runningBefore = true ∧ it.runningAfter = true
        ∧ allRunning tr = true := by
  simp [allRunning, Bool.and_eq_true, and_assoc]

/-- A loop iteration whose `waitpid` call failed (no reaped pid) just goes
round the loop again. -/
theorem runWaitAux_cons_err (watchPids : List Nat) (st : WaitState)
    (it : Iter) (rest : List Iter)
    (hrb : it.runningBefore = true) (hra : it.runningAfter = true)
    (hw : it.waited = none) :
    runWaitAux watchPids st (it :: rest) = runWaitAux watchPids st rest := by
  rw [runWaitAux.eq_def]
  dsimp only
  rw [if_neg (by simp [hrb]), if_neg (by simp [hra]), hw]

/-- A loop iteration whose reap does not end the loop continues with the
state left by `handleReap`. -/
theorem runWaitAux_cons_cont (watchPids : List Nat) (st st' : WaitState)
    (it : Iter) (rest : List Iter) (pid : Nat) (ws : Option Nat)
    (hrb : it.runningBefore = true) (hra : it.runningAfter = true)
    (hw : it.waited = some (pid, ws))
    (hr : handleReap watchPids st pid ws = (st', none)) :
    runWaitAux watchPids st (it :: rest) = runWaitAux watchPids st' rest := by
  rw [runWaitAux.eq_def]
  dsimp only
  rw [if_neg (by simp [hrb]), if_neg (by simp [hra]), hw]
  dsimp only
  rw [hr]

/-- A loop iteration whose reap ends the loop returns at once, whatever the
rest of the trace holds. -/
theorem runWaitAux_cons_ret (watchPids : List Nat) (st st' : WaitState)
    (it : Iter) (rest : List Iter) (pid : Nat) (ws : Option Nat) (c : Nat)
    (hrb : it.runningBefore = true) (hra : it.runningAfter = true)
    (hw : it.waited = some (pid, ws))
    (hr : handleReap watchPids st pid ws = (st', some c)) :
    runWaitAux watchPids st (it :: rest) = .returned c := by
  rw [runWaitAux.eq_def]
  dsimp only
  rw [if_neg (by simp [hrb]), if_neg (by simp [hra]), hw]
  dsimp only
  rw [hr]

/-- While the `running` flag stays true and fewer watched reaps than
`cmds_left` have been observed, the loop does not return: it is still
blocked waiting. -/
theorem runWaitAux_blocked_of_count_lt (watchPids : List Nat) :
    ∀ (trace : List Iter) (st : WaitState), allRunning trace = true →
      (matchedCount watchPids trace : Int) < st.cmdsLeft →
      ∃ st', runWaitAux watchPids st trace = .blocked st' := by
  intro trace
  induction trace with
  | nil => exact fun st _ _ => ⟨st, rfl⟩
  | cons it rest ih =>
    intro st hrun hcnt
    obtain ⟨hrb, hra, hrest⟩ := (allRunning_cons it rest).mp hrun
    rw [matchedCount_cons] at hcnt
    rcases hw : it.waited with _ | ⟨pid, ws⟩
    · have hm : iterMatches watchPids it = false := by
        simp [iterMatches, hw]
      rw [hm] at hcnt
      simp only [Bool.false_eq_true, if_false, Nat.zero_add] at hcnt
      rw [runWaitAux_cons_err watchPids st it rest hrb hra hw]
      exact ih st hrest (by omega)
    · rcases hfind : List.findIdx? (fun p => p == pid) watchPids with _ | i
      · have hm : iterMatches watchPids it = false := by
          simp [iterMatches, hw, hfind]
        rw [hm] at hcnt
        simp only [Bool.false_eq_true, if_false, Nat.zero_add] at hcnt
        rw [runWaitAux_cons_cont watchPids st st it rest pid ws hrb hra hw
          (handleReap_unmatched watchPids st pid ws hfind)]
        exact ih st hrest (by omega)
      · have hm : iterMatches watchPids it = true := by
          simp [iterMatches, hw, hfind]
        rw [hm] at hcnt
        simp only [if_true] at hcnt
        have hne : st.cmdsLeft - 1 ≠ 0 := by push_cast at hcnt; omega
        obtain ⟨st', heq, hcl⟩ :=
          handleReap_matched_cont watchPids st pid ws i hfind hne
        rw [runWaitAux_cons_cont watchPids st st' it rest pid ws hrb hra hw heq]
        exact ih st' hrest (by rw [hcl]; push_cast at hcnt ⊢; omega)

/-- When the matched-reap count reaches `cmds_left` exactly at iteration
`it` (no signal observed), the loop returns there, and the returned code
does not depend on anything that would come afterwards. -/
theorem runWaitAux_returns_at_last (watchPids : List Nat) :
    ∀ (pre : List Iter) (it : Iter) (post : List Iter) (st : WaitState),
      allRunning (pre ++ [it]) = true →
      iterMatches watchPids it = true →
      (matchedCount watchPids (pre ++ [it]) : Int) = st.cmdsLeft →
      ∃ c, runWaitAux watchPids st (pre ++ it :: post) = .returned c ∧
        runWaitAux watchPids st (pre ++ [it]) = .returned c := by
  intro pre
  induction pre with
  | nil =>
    intro it post st hrun hm hcnt
    simp only [List.nil_append] at hrun hcnt ⊢
    obtain ⟨hrb, hra, _⟩ := (allRunning_cons it []).mp hrun
    rcases hw : it.waited with _ | ⟨pid, ws⟩
    · rw [iterMatches, hw] at hm
      exact absurd hm (by simp)
    · have hsome : (List.findIdx? (fun p => p == pid) watchPids).isSome := by
        rw [iterMatches, hw] at hm
        exact hm
      obtain ⟨i, hfind⟩ := Option.isSome_iff_exists.mp hsome
      have hcl : st.cmdsLeft - 1 = 0 := by
        rw [matchedCount_cons, hm] at hcnt
        simp [matchedCount] at hcnt
        omega
      obtain ⟨st', heq, _⟩ :=
        handleReap_matched_ret watchPids st pid ws i hfind hcl
      exact ⟨st'.errorCode,
        runWaitAux_cons_ret watchPids st st' it post pid ws st'.errorCode
          hrb hra hw heq,
        runWaitAux_cons_ret watchPids st st' it [] pid ws st'.errorCode
          hrb hra hw heq⟩
  | cons p pre ih =>
    intro it post st hrun hm hcnt
    simp only [List.cons_append] at hrun hcnt ⊢
    obtain ⟨hrb, hra, hrest⟩ := (allRunning_cons p (pre ++ [it])).mp hrun
    rw [matchedCount_cons] at hcnt
    rcases hw : p.waited with _ | ⟨pid, ws⟩
    · have hmp : iterMatches watchPids p = false := by
        simp [iterMatches, hw]
      rw [hmp] at hcnt
      simp only [Bool.false_eq_true, if_false, Nat.zero_add] at hcnt
      obtain ⟨c, h1, h2⟩ := ih it post st hrest hm hcnt
      exact ⟨c,
        (runWaitAux_cons_err watchPids st p (pre ++ it :: post)
          hrb hra hw).trans h1,
        (runWaitAux_cons_err watchPids st p (pre ++ [it])
          hrb hra hw).trans h2⟩
    · rcases hfind : List.findIdx? (fun q => q == pid) watchPids with _ | i
      · have hmp : iterMatches watchPids p = false := by
          simp [iterMatches, hw, hfind]
        rw [hmp] at hcnt
        simp only [Bool.false_eq_true, if_false, Nat.zero_add] at hcnt
        obtain ⟨c, h1, h2⟩ := ih it post st hrest hm hcnt
        exact ⟨c,
          (runWaitAux_cons_cont watchPids st st p (pre ++ it :: post) pid ws
            hrb hra hw (handleReap_unmatched watchPids st pid ws hfind)).trans h1,
          (runWaitAux_cons_cont watchPids st st p (pre ++ [it]) pid ws
            hrb hra hw (handleReap_unmatched watchPids st pid ws hfind)).trans h2⟩
      · have hmp : iterMatches watchPids p = true := by
          simp [iterMatches, hw, hfind]
        rw [hmp] at hcnt
        simp only [if_true] at hcnt
        have hne : st.cmdsLeft - 1 ≠ 0 := by
          have hpos : 0 < matchedCount watchPids (pre ++ [it]) := by
            unfold matchedCount
            rw [List.filter_append]
            simp [List.filter_cons, hm]
          push_cast at hcnt
          omega
        obtain ⟨st', heq, hcl⟩ :=
          handleReap_matched_cont watchPids st pid ws i hfind hne
        obtain ⟨c, h1, h2⟩ := ih it post st' hrest hm
          (by rw [hcl]; push_cast at hcnt ⊢; omega)
        exact ⟨c,
          (runWaitAux_cons_cont watchPids st st' p (pre ++ it :: post) pid ws
            hrb hra hw heq).trans h1,
          (runWaitAux_cons_cont watchPids st st' p (pre ++ [it]) pid ws
            hrb hra hw heq).trans h2⟩

/-- C7: with no termination signal observed, the supervision loop returns
exactly when the count of reaped watched-command exits reaches the size of
the watched set: with fewer reaps it is still blocked, and at the reap that
completes the count it returns at once, with a code independent of any
later exits — it never waits for unwatched commands. -/
theorem claim_C7_terminates_when_watchset_drained (watchPids : List Nat) :
    (∀ (trace : List Iter), allRunning trace = true →
      matchedCount watchPids trace < watchPids.length →
      wait_for_requested_commands_to_exit watchPids.length watchPids trace
        = none) ∧
    (∀ (pre : List Iter) (it : Iter) (post : List Iter),
      allRunning (pre ++ [it]) = true →
      iterMatches watchPids it = true →
      matchedCount watchPids (pre ++ [it]) = watchPids.length →
      ∃ c, wait_for_requested_commands_to_exit watchPids.length watchPids
          (pre ++ it :: post) = some c ∧
        wait_for_requested_commands_to_exit watchPids.length watchPids
          (pre ++ [it]) = some c) := by
  constructor
  · intro trace hrun hcnt
    obtain ⟨st', heq⟩ := runWaitAux_blocked_of_count_lt watchPids trace
      (initWaitState watchPids.length) hrun
      (by show _ < ((watchPids.length : Nat) : Int); omega)
    unfold wait_for_requested_commands_to_exit
    rw [heq]
  · intro pre it post hrun hm hcnt
    obtain ⟨c, h1, h2⟩ := runWaitAux_returns_at_last watchPids pre it post
      (initWaitState watchPids.length) hrun hm
      (by show _ = ((watchPids.length : Nat) : Int); rw [hcnt])
    refine ⟨c, ?_, ?_⟩ <;>
      · unfold wait_for_requested_commands_to_exit
        first
          | rw [h1]
          | rw [h2]

/-- Witness for C7: one watched pid 5; its reap alone ends the loop, and a
later unwatched exit (pid 9) changes nothing. -/
theorem claim_C7_terminates_when_watchset_drained_witness :
    ∃ c, wait_for_requested_commands_to_exit 1 [5]
        [reapIter 5 0, reapIter 9 7] = some c ∧
      wait_for_requested_commands_to_exit 1 [5] [reapIter 5 0] = some c :=
  (claim_C7_terminates_when_watchset_drained [5]).2 [] (reapIter 5 0)
    [reapIter 9 7] (by decide) (by decide) (by decide)

/-- C5: whenever the `running` flag is observed false at the check before
the blocking reap, or at the check after it, the loop returns immediately
with the exit code recorded so far — for every possible continuation of the
trace, so no further waiting happens — and the initially recorded code is 0,
which is what it returns when no watched command has yet reported a nonzero
normal exit. -/
theorem claim_C5_early_exit_on_signal (watchPids : List Nat)
    (st : WaitState) (it : Iter) (rest : List Iter) (n : Nat) :
    (it.runningBefore = false →
      runWaitAux watchPids st (it :: rest) = .returned st.errorCode) ∧
    (it.runningAfter = false →
      runWaitAux watchPids st (it :: rest) = .returned st.errorCode) ∧
    (initWaitState n).errorCode = 0 := by
  refine ⟨?_, ?_, rfl⟩
  · intro h
    unfold runWaitAux
    rw [h]
    rfl
  · intro h
    unfold runWaitAux
    rw [h]
    by_cases hb : it.runningBefore = false
    · rw [hb]
      rfl
    · have : it.runningBefore = true := by
        cases hbv : it.runningBefore
        · exact absurd hbv hb
        · rfl
      rw [this]
      rfl

/-- Witness for C5: a signal observed at the pre-reap check makes the loop
return 0 immediately, ignoring the rest of the trace. -/
theorem claim_C5_early_exit_on_signal_witness :
    runWaitAux [5] (initWaitState 1)
        ({ runningBefore := false, waited := none, runningAfter := true }
          :: [reapIter 5 7]) = .returned 0 :=
  (claim_C5_early_exit_on_signal [5] (initWaitState 1)
    { runningBefore := false, waited := none, runningAfter := true }
    [reapIter 5 7] 1).1 rfl

/-! ## Lemmas about `main` -/

theorem derive_watch_configuring_map :
    ∀ (l : List Cmd) (j : Nat),
      ((l.map (fun c => if !c.configuring then { c with watch := true }
          else c)).getD j default).configuring
        = (l.getD j default).configuring := by
  intro l
  induction l with
  | nil => intro j; rfl
  | cons a l ih =>
    intro j
    cases j with
    | zero =>
      show (if !a.configuring then { a with watch := true }
          else a).configuring = a.configuring
      by_cases h : a.configuring <;> simp [h]
    | succ j => exact ih j

theorem derive_watch_length (cmds : List Cmd) :
    (derive_watch cmds).length = cmds.length := by
  unfold derive_watch
  split_ifs with h
  · simp
  · rfl

/-- The default-watch mutation of src/main.c lines 273-281 touches only
`watch` flags: the `configuring` flags are untouched. -/
theorem derive_watch_configuring (cmds : List Cmd) (j : Nat) :
    ((derive_watch cmds).getD j default).configuring
      = (cmds.getD j default).configuring := by
  unfold derive_watch
  split_ifs with h
  · exact derive_watch_configuring_map cmds j
  · rfl

theorem cfgIdxs_derive (cmds : List Cmd) :
    cfgIdxs (derive_watch cmds) = cfgIdxs cmds := by
  unfold cfgIdxs idxsWhere
  rw [derive_watch_length]
  apply List.filter_congr
  intro i _
  show ((derive_watch cmds).getD i default).configuring
      = (cmds.getD i default).configuring
  exact derive_watch_configuring cmds i

theorem mem_idxsWhere (cmds : List Cmd) (p : Cmd → Bool) (j : Nat) :
    j ∈ idxsWhere cmds p ↔ j < cmds.length ∧ p (cmds.getD j default) = true := by
  unfold idxsWhere
  simp [List.mem_filter, List.mem_range]

/-- `main` when a termination signal was observed before the post-configure
check (src/main.c line 297): the whole guarded block is skipped and the
never-assigned `error_code` is returned. -/
theorem mainModel_not_running (inp : MainInput)
    (h : inp.runningAfterConfigure = false) :
    mainModel inp =
      (MainEvent.installHandlers
          :: ((cfgIdxs (derive_watch inp.cmds)).map MainEvent.launch
            ++ (if (cfgIdxs (derive_watch inp.cmds)).isEmpty then []
                else [MainEvent.configureDrain])),
        none) := by
  unfold mainModel
  rw [if_neg (by simp [h])]
  simp [List.cons_append]

/-- `main` when `running` survives the configure phase and the supervision
loop returns `c`: the full launch and shutdown-cascade event sequence. -/
theorem mainModel_running_ret (inp : MainInput) (c : Nat)
    (h : inp.runningAfterConfigure = true)
    (hw : wait_for_requested_commands_to_exit
        (watchIdxs (derive_watch inp.cmds)).length
        ((watchIdxs (derive_watch inp.cmds)).map inp.pidOf) inp.trace
      = some c) :
    mainModel inp =
      ((MainEvent.installHandlers
          :: ((cfgIdxs (derive_watch inp.cmds)).map MainEvent.launch
            ++ (if (cfgIdxs (derive_watch inp.cmds)).isEmpty then []
                else [MainEvent.configureDrain])))
        ++ (mainIdxs (derive_watch inp.cmds)).map MainEvent.launch
        ++ [MainEvent.removeHandlers, MainEvent.armAlarm c,
            MainEvent.broadcast (if inp.signalEverything then -1 else 0),
            MainEvent.finalDrain],
      some (shutdown_drain c inp.timeoutFires)) := by
  unfold mainModel
  rw [if_pos h]
  dsimp only
  rw [hw]
  dsimp only
  simp [List.cons_append, List.append_assoc]

/-- `main` when `running` survives the configure phase but the supervision
loop never returns within the trace. -/
theorem mainModel_running_blocked (inp : MainInput)
    (h : inp.runningAfterConfigure = true)
    (hw : wait_for_requested_commands_to_exit
        (watchIdxs (derive_watch inp.cmds)).length
        ((watchIdxs (derive_watch inp.cmds)).map inp.pidOf) inp.trace
      = none) :
    mainModel inp =
      ((MainEvent.installHandlers
          :: ((cfgIdxs (derive_watch inp.cmds)).map MainEvent.launch
            ++ (if (cfgIdxs (derive_watch inp.cmds)).isEmpty then []
                else [MainEvent.configureDrain])))
        ++ (mainIdxs (derive_watch inp.cmds)).map MainEvent.launch,
      none) := by
  unfold mainModel
  rw [if_pos h]
  dsimp only
  rw [hw]
  dsimp only
  simp [List.cons_append, List.append_assoc]

/-- Anything in the configure-phase event prefix is the handler
installation, the launch of a configuring command, or the configure
drain. -/
theorem mem_cfg_prefix {cmds : List Cmd} {e : MainEvent} :
    e ∈ MainEvent.installHandlers :: ((cfgIdxs cmds).map MainEvent.launch
        ++ (if (cfgIdxs cmds).isEmpty then []
            else [MainEvent.configureDrain])) →
      e = MainEvent.installHandlers
      ∨ (∃ j ∈ cfgIdxs cmds, MainEvent.launch j = e)
      ∨ e = MainEvent.configureDrain := by
  intro hmem
  rw [List.mem_cons, List.mem_append] at hmem
  rcases hmem with h1 | h2 | h3
  · exact Or.inl h1
  · exact Or.inr (Or.inl (by simpa using h2))
  · by_cases hemp : (cfgIdxs cmds).isEmpty = true
    · rw [if_pos hemp] at h3
      exact absurd h3 (List.not_mem_nil _)
    · rw [if_neg hemp] at h3
      exact Or.inr (Or.inr (by simpa using h3))

/-- The events of every run of `main` split as the configure-phase prefix
followed by events among which every launch is of a non-configuring command
and no configure drain occurs. -/
theorem mainModel_events_split (inp : MainInput) :
    ∃ rest, (mainModel inp).1
        = MainEvent.installHandlers :: ((cfgIdxs (derive_watch inp.cmds)).map MainEvent.launch
          ++ (if (cfgIdxs (derive_watch inp.cmds)).isEmpty then []
              else [MainEvent.configureDrain]) ++ rest)
      ∧ (∀ j, MainEvent.launch j ∈ rest → j ∈ mainIdxs (derive_watch inp.cmds))
      ∧ MainEvent.configureDrain ∉ rest := by
  by_cases h : inp.runningAfterConfigure = true
  · cases hw : wait_for_requested_commands_to_exit
        (watchIdxs (derive_watch inp.cmds)).length
        ((watchIdxs (derive_watch inp.cmds)).map inp.pidOf) inp.trace with
    | none =>
      refine ⟨(mainIdxs (derive_watch inp.cmds)).map MainEvent.launch, ?_, ?_, ?_⟩
      · rw [mainModel_running_blocked inp h hw]
        simp [List.append_assoc]
      · intro j hj
        obtain ⟨a, ha, hinj⟩ := List.mem_map.mp hj
        have haj : a = j := by injection hinj
        subst haj
        exact ha
      · simp
    | some c =>
      refine ⟨(mainIdxs (derive_watch inp.cmds)).map MainEvent.launch
          ++ [MainEvent.removeHandlers, MainEvent.armAlarm c,
              MainEvent.broadcast (if inp.signalEverything then -1 else 0),
              MainEvent.finalDrain], ?_, ?_, ?_⟩
      · rw [mainModel_running_ret inp c h hw]
        simp [List.append_assoc]
      · intro j hj
        rw [List.mem_append] at hj
        rcases hj with hj | hj
        · obtain ⟨a, ha, hinj⟩ := List.mem_map.mp hj
          have haj : a = j := by injection hinj
          subst haj
          exact ha
        · simp at hj
      · simp
  · rw [mainModel_not_running inp (by simpa using h)]
    exact ⟨[], by simp, by simp, by simp⟩

/-- C3: if a termination signal is observed before the post-configure
`running` check, `main` launches no non-configuring command, performs none
of the shutdown cascade (no handler removal, no alarm, no broadcast, no
final drain), and the run produces no assigned exit status: the returned
`error_code` was never written on this path (modelled as `none`). -/
theorem claim_C3_early_signal_returns_indeterminate (inp : MainInput)
    (h : inp.runningAfterConfigure = false) :
    (mainModel inp).2 = none
    ∧ (∀ j, MainEvent.launch j ∈ (mainModel inp).1 →
        (inp.cmds.getD j default).configuring = true)
    ∧ MainEvent.removeHandlers ∉ (mainModel inp).1
    ∧ (∀ cd, MainEvent.armAlarm cd ∉ (mainModel inp).1)
    ∧ (∀ t, MainEvent.broadcast t ∉ (mainModel inp).1)
    ∧ MainEvent.finalDrain ∉ (mainModel inp).1 := by
  rw [mainModel_not_running inp h]
  refine ⟨rfl, ?_, ?_, ?_, ?_, ?_⟩
  · intro j hj
    rcases mem_cfg_prefix hj with h1 | ⟨i, hi, h2⟩ | h3
    · exact absurd h1 (by simp)
    · have : i = j := by injection h2
      subst this
      rw [cfgIdxs, mem_idxsWhere] at hi
      have := hi.2
      rw [derive_watch_configuring] at this
      exact this
    · exact absurd h3 (by simp)
  · intro hmem
    rcases mem_cfg_prefix hmem with h1 | ⟨i, _, h2⟩ | h3
    · exact absurd h1 (by simp)
    · exact absurd h2 (by simp)
    · exact absurd h3 (by simp)
  · intro cd hmem
    rcases mem_cfg_prefix hmem with h1 | ⟨i, _, h2⟩ | h3
    · exact absurd h1 (by simp)
    · exact absurd h2 (by simp)
    · exact absurd h3 (by simp)
  · intro t hmem
    rcases mem_cfg_prefix hmem with h1 | ⟨i, _, h2⟩ | h3
    · exact absurd h1 (by simp)
    · exact absurd h2 (by simp)
    · exact absurd h3 (by simp)
  · intro hmem
    rcases mem_cfg_prefix hmem with h1 | ⟨i, _, h2⟩ | h3
    · exact absurd h1 (by simp)
    · exact absurd h2 (by simp)
    · exact absurd h3 (by simp)

/-- Witness for C3: a configuring and a main command, signal observed
before the main phase: no exit status is assigned and only the configure
phase ran. -/
theorem claim_C3_early_signal_returns_indeterminate_witness :
    (mainModel { cmds := [⟨["c"], false, true⟩, ⟨["m"], false, false⟩]
                 signalEverything := false
                 runningAfterConfigure := false
                 trace := []
                 timeoutFires := false
                 pidOf := fun _ => 5 }).2 = none :=
  (claim_C3_early_signal_returns_indeterminate
    { cmds := [⟨["c"], false, true⟩, ⟨["m"], false, false⟩]
      signalEverything := false
      runningAfterConfigure := false
      trace := []
      timeoutFires := false
      pidOf := fun _ => 5 } rfl).1

/-- C4: if the timeout alarm fires before the final all-descendants drain
completes, the process exits with exactly the exit code recorded when the
alarm was armed — the aggregate code `c` returned by the watched-exit
loop — and that same code was armed with the alarm. -/
theorem claim_C4_timeout_exits_with_recorded_code (inp : MainInput) (c : Nat)
    (hrun : inp.runningAfterConfigure = true)
    (hwait : wait_for_requested_commands_to_exit
        (watchIdxs (derive_watch inp.cmds)).length
        ((watchIdxs (derive_watch inp.cmds)).map inp.pidOf) inp.trace
      = some c)
    (htimeout : inp.timeoutFires = true) :
    (mainModel inp).2 = some c
    ∧ MainEvent.armAlarm c ∈ (mainModel inp).1 := by
  rw [mainModel_running_ret inp c hrun hwait]
  constructor
  · show some (shutdown_drain c inp.timeoutFires) = some c
    rw [htimeout]
    rfl
  · simp

/-- Witness for C4: one watched command exits 4, the drain times out, the
process exits 4. -/
theorem claim_C4_timeout_exits_with_recorded_code_witness :
    (mainModel { cmds := [⟨["m"], false, false⟩]
                 signalEverything := false
                 runningAfterConfigure := true
                 trace := [reapIter 5 4]
                 timeoutFires := true
                 pidOf := fun _ => 5 }).2 = some 4 :=
  (claim_C4_timeout_exits_with_recorded_code
    { cmds := [⟨["m"], false, false⟩]
      signalEverything := false
      runningAfterConfigure := true
      trace := [reapIter 5 4]
      timeoutFires := true
      pidOf := fun _ => 5 } 4 rfl (by decide) rfl).1

/-- C9: in every run reaching the shutdown cascade, the termination-signal
handlers are uninstalled strictly before the cascade broadcasts its own
termination signal (to the process group, or to all processes when
`signal_everything` is set): the events end with remove-handlers, arm-alarm,
broadcast, drain, and no broadcast occurs anywhere earlier. -/
theorem claim_C9_handlers_removed_before_broadcast (inp : MainInput)
    (c : Nat) (hrun : inp.runningAfterConfigure = true)
    (hwait : wait_for_requested_commands_to_exit
        (watchIdxs (derive_watch inp.cmds)).length
        ((watchIdxs (derive_watch inp.cmds)).map inp.pidOf) inp.trace
      = some c) :
    ∃ pre, (mainModel inp).1
        = pre ++ [MainEvent.removeHandlers, MainEvent.armAlarm c,
            MainEvent.broadcast (if inp.signalEverything then -1 else 0),
            MainEvent.finalDrain]
      ∧ (∀ t, MainEvent.broadcast t ∉ pre)
      ∧ MainEvent.removeHandlers ∉ pre := by
  rw [mainModel_running_ret inp c hrun hwait]
  refine ⟨MainEvent.installHandlers
      :: ((cfgIdxs (derive_watch inp.cmds)).map MainEvent.launch
        ++ (if (cfgIdxs (derive_watch inp.cmds)).isEmpty then []
            else [MainEvent.configureDrain]))
      ++ (mainIdxs (derive_watch inp.cmds)).map MainEvent.launch, ?_, ?_, ?_⟩
  · simp [List.append_assoc]
  · intro t hmem
    simp only [List.cons_append, List.mem_cons, List.mem_append,
      List.mem_map] at hmem
    rcases hmem with h1 | (h2 | h3) | h4
    · exact absurd h1 (by simp)
    · obtain ⟨i, _, hi⟩ := h2
      exact absurd hi (by simp)
    · by_cases hemp : (cfgIdxs (derive_watch inp.cmds)).isEmpty <;>
        simp [hemp] at h3
    · obtain ⟨i, _, hi⟩ := h4
      exact absurd hi (by simp)
  · intro hmem
    simp only [List.cons_append, List.mem_cons, List.mem_append,
      List.mem_map] at hmem
    rcases hmem with h1 | (h2 | h3) | h4
    · exact absurd h1 (by simp)
    · obtain ⟨i, _, hi⟩ := h2
      exact absurd hi (by simp)
    · by_cases hemp : (cfgIdxs (derive_watch inp.cmds)).isEmpty <;>
        simp [hemp] at h3
    · obtain ⟨i, _, hi⟩ := h4
      exact absurd hi (by simp)

/-- Witness for C9: one watched command exiting 0; the cascade runs with
handlers removed before the broadcast to the process group. -/
theorem claim_C9_handlers_removed_before_broadcast_witness :
    ∃ pre, (mainModel { cmds := [⟨["m"], false, false⟩]
                        signalEverything := false
                        runningAfterConfigure := true
                        trace := [reapIter 5 0]
                        timeoutFires := false
                        pidOf := fun _ => 5 }).1
        = pre ++ [MainEvent.removeHandlers, MainEvent.armAlarm 0,
            MainEvent.broadcast (if false then -1 else 0),
            MainEvent.finalDrain]
      ∧ (∀ t, MainEvent.broadcast t ∉ pre)
      ∧ MainEvent.removeHandlers ∉ pre :=
  claim_C9_handlers_removed_before_broadcast
    { cmds := [⟨["m"], false, false⟩]
      signalEverything := false
      runningAfterConfigure := true
      trace := [reapIter 5 0]
      timeoutFires := false
      pidOf := fun _ => 5 } 0 rfl (by decide)

/-- C6: when no command is configuring, the configure phase launches
nothing and performs no drain; when at least one is, every configuring
command is launched, in CommandSet order, and the full drain happens before
any non-configuring command is launched (every launch after the drain is of
a non-configuring command, and configuring commands are launched only
before it). -/
theorem claim_C6_configure_before_main (inp : MainInput) :
    (cfgIdxs inp.cmds = [] →
      MainEvent.configureDrain ∉ (mainModel inp).1
      ∧ ∀ j, MainEvent.launch j ∈ (mainModel inp).1 →
          (inp.cmds.getD j default).configuring = false) ∧
    (cfgIdxs inp.cmds ≠ [] →
      ∃ rest, (mainModel inp).1
          = MainEvent.installHandlers :: ((cfgIdxs inp.cmds).map MainEvent.launch
            ++ MainEvent.configureDrain :: rest)
        ∧ ∀ j, MainEvent.launch j ∈ rest →
            (inp.cmds.getD j default).configuring = false) := by
  obtain ⟨rest, hsplit, hrest, hnd⟩ := mainModel_events_split inp
  rw [cfgIdxs_derive] at hsplit
  have hmain : ∀ j, j ∈ mainIdxs (derive_watch inp.cmds) →
      (inp.cmds.getD j default).configuring = false := by
    intro j hj
    rw [mainIdxs, mem_idxsWhere] at hj
    have := hj.2
    rw [derive_watch_configuring] at this
    simpa using this
  constructor
  · intro hemp
    rw [hsplit]
    rw [hemp]
    constructor
    · simp only [List.map_nil, List.isEmpty_nil, if_true, List.nil_append,
        List.mem_cons]
      intro hc
      rcases hc with hc | hc
      · exact absurd hc (by simp)
      · exact hnd hc
    · intro j hj
      simp only [hemp, List.map_nil, List.isEmpty_nil, if_true,
        List.nil_append, List.mem_cons] at hj
      rcases hj with hj | hj
      · exact absurd hj (by simp)
      · exact hmain j (hrest j hj)
  · intro hne
    have hemp : (cfgIdxs inp.cmds).isEmpty = false := by
      cases hval : cfgIdxs inp.cmds with
      | nil => exact absurd hval hne
      | cons a l => rfl
    refine ⟨rest, ?_, ?_⟩
    · rw [hsplit, hemp]
      simp
    · intro j hj
      exact hmain j (hrest j hj)

/-- Witness for C6: one configuring and one main command; the event list
splits as claimed. -/
theorem claim_C6_configure_before_main_witness :
    cfgIdxs [(⟨["c"], false, true⟩ : Cmd), ⟨["m"], false, false⟩] ≠ []
    ∧ ∃ rest,
      (mainModel { cmds := [⟨["c"], false, true⟩, ⟨["m"], false, false⟩]
                   signalEverything := false
                   runningAfterConfigure := true
                   trace := [reapIter 5 0]
                   timeoutFires := false
                   pidOf := fun _ => 5 }).1
        = MainEvent.installHandlers
            :: ((cfgIdxs [(⟨["c"], false, true⟩ : Cmd), ⟨["m"], false, false⟩]).map
                  MainEvent.launch
              ++ MainEvent.configureDrain :: rest)
      ∧ ∀ j, MainEvent.launch j ∈ rest →
          (([(⟨["c"], false, true⟩ : Cmd),
            ⟨["m"], false, false⟩].getD j default).configuring) = false :=
  ⟨by decide,
    (claim_C6_configure_before_main
      { cmds := [⟨["c"], false, true⟩, ⟨["m"], false, false⟩]
        signalEverything := false
        runningAfterConfigure := true
        trace := [reapIter 5 0]
        timeoutFires := false
        pidOf := fun _ => 5 }).2 (by decide)⟩

/-! ## The default-watch rule (C8) -/

theorem filter_watch_map_default (cmds : List Cmd)
    (h : ∀ c ∈ cmds, c.watch = false) :
    (cmds.map (fun c => if !c.configuring then { c with watch := true }
        else c)).filter (·.watch)
      = (cmds.filter (fun c => !c.configuring)).map
          (fun c => { c with watch := true }) := by
  induction cmds with
  | nil => rfl
  | cons a l ih =>
    have ha : a.watch = false := h a (List.mem_cons_self a l)
    have hl : ∀ c ∈ l, c.watch = false :=
      fun c hc => h c (List.mem_cons_of_mem a hc)
    by_cases hcfg : a.configuring
    · have h1 : (if !a.configuring then ({ a with watch := true } : Cmd)
          else a) = a := by simp [hcfg]
      rw [List.map_cons, h1, List.filter_cons, List.filter_cons]
      simp only [ha, hcfg, Bool.not_true, Bool.false_eq_true, if_false]
      exact ih hl
    · have hcfg' : a.configuring = false := by
        cases hv : a.configuring
        · rfl
        · exact absurd hv hcfg
      have h1 : (if !a.configuring then ({ a with watch := true } : Cmd)
          else a) = { a with watch := true } := by simp [hcfg']
      rw [List.map_cons, h1, List.filter_cons, List.filter_cons]
      simp only [hcfg', Bool.not_false, if_true, List.map_cons]
      rw [ih hl]

/-- C8: when no command is explicitly marked watched, the derived WatchSet
is exactly the non-configuring commands in CommandSet order (with their
`watch` flags now set); when at least one command is explicitly marked, the
commands are left untouched and the WatchSet is exactly the
explicitly-marked commands. -/
theorem claim_C8_default_watch_rule (cmds : List Cmd) :
    ((∀ c ∈ cmds, c.watch = false) →
      (derive_watch cmds).filter (·.watch)
        = (cmds.filter (fun c => !c.configuring)).map
            (fun c => { c with watch := true })) ∧
    ((∃ c ∈ cmds, c.watch = true) →
      derive_watch cmds = cmds ∧
      (derive_watch cmds).filter (·.watch) = cmds.filter (·.watch)) := by
  constructor
  · intro h
    have hnil : cmds.filter (·.watch) = [] := by
      rw [List.filter_eq_nil_iff]
      intro c hc
      simp [h c hc]
    have hcnt : explicitWatchCount cmds = 0 := by
      unfold explicitWatchCount
      rw [hnil]
      rfl
    unfold derive_watch
    rw [if_pos hcnt]
    exact filter_watch_map_default cmds h
  · rintro ⟨c, hc, hw⟩
    have hcnt : explicitWatchCount cmds ≠ 0 := by
      unfold explicitWatchCount
      intro h0
      rw [List.length_eq_zero] at h0
      have hmem : c ∈ cmds.filter (·.watch) :=
        List.mem_filter.mpr ⟨hc, hw⟩
      rw [h0] at hmem
      exact absurd hmem (List.not_mem_nil c)
    have hd : derive_watch cmds = cmds := by
      unfold derive_watch
      rw [if_neg hcnt]
    exact ⟨hd, by rw [hd]⟩

/-- Witness for C8: two commands, none marked watched, one configuring; the
WatchSet becomes exactly the non-configuring one. -/
theorem claim_C8_default_watch_rule_witness :
    (∀ c ∈ [(⟨["a"], false, false⟩ : Cmd), ⟨["b"], false, true⟩],
      c.watch = false) ∧
    (derive_watch [(⟨["a"], false, false⟩ : Cmd),
        ⟨["b"], false, true⟩]).filter (·.watch)
      = ([(⟨["a"], false, false⟩ : Cmd), ⟨["b"], false, true⟩].filter
          (fun c => !c.configuring)).map (fun c => { c with watch := true }) :=
  ⟨by decide, (claim_C8_default_watch_rule _).1 (by decide)⟩

/-! ## Usage errors (C10) -/

/-- Every exit taken inside the option-character switch carries code 1
(the `-a`-outside-init check, src/main.c lines 198-204). -/
theorem applyOptChars_error (isInit : Bool) :
    ∀ (cs : List Char) (sigAll c f : Bool) (e : Nat),
      applyOptChars isInit sigAll c f cs = .error e → e = 1 := by
  intro cs
  induction cs with
  | nil =>
    intro sigAll c f e h
    exact absurd h (by simp [applyOptChars])
  | cons ch cs ih =>
    intro sigAll c f e h
    unfold applyOptChars at h
    split_ifs at h
    · exact ih _ _ _ _ h
    · injection h with h'
      omega
    · exact ih _ _ _ _ h
    · exact ih _ _ _ _ h
    · exact ih _ _ _ _ h

/-- Every exit taken during argument parsing carries code 1: the `-a`
check, the `-c`/`-f` conflict check, and the separator-at-end check all
`exit(1)`. -/
theorem parse_argv_loop_error (isInit : Bool) :
    ∀ (toks : List String) (sigAll c f inOpts : Bool) (acc : List String)
      (e : Nat),
      parse_argv_loop isInit sigAll c f inOpts acc toks = .error e →
      e = 1 := by
  intro toks
  induction toks with
  | nil =>
    intro sigAll c f inOpts acc e h
    exact absurd h (by simp [parse_argv_loop])
  | cons t rest ih =>
    intro sigAll c f inOpts acc e h
    unfold parse_argv_loop at h
    repeat' split at h
    all_goals try exact ih _ _ _ _ _ _ h
    all_goals try (injection h with h'; omega)
    all_goals try exact Except.noConfusion h
    all_goals
      rename_i heq
      injection h with h'
      subst h'
      first
        | exact applyOptChars_error isInit _ _ _ _ _ heq
        | exact ih _ _ _ _ _ _ heq

/-- C10: every usage error — conflicting `-c`/`-f` on a command group, no
command groups at all (`argc == 1`), a separator with nothing after it, or
`-a` outside the init process — makes the process exit with status 1 before
any child process is launched (the run produces no events at all). -/
theorem claim_C10_usage_errors_exit_1 (isInit : Bool) (argv : List String)
    (orc : Oracles) :
    (argv.length = 1 → smellBaronMain isInit argv orc = ([], some 1)) ∧
    (∀ e, parse_argv isInit (argv.drop 1) = .error e →
      smellBaronMain isInit argv orc = ([], some 1)) := by
  constructor
  · intro h
    unfold smellBaronMain
    rw [if_pos h]
  · intro e he
    have he1 : e = 1 := parse_argv_loop_error isInit _ _ _ _ _ _ _ he
    subst he1
    unfold smellBaronMain
    by_cases hlen : argv.length = 1
    · rw [if_pos hlen]
    · rw [if_neg hlen, he]

/-- Witness for C10: `-c` and `-f` given together on the first command
group; parsing exits 1 and no process is launched. -/
theorem claim_C10_usage_errors_exit_1_witness :
    parse_argv false (["smell-baron", "-cf", "x"].drop 1) = .error 1 ∧
    smellBaronMain false ["smell-baron", "-cf", "x"]
        ⟨true, [], false, fun _ => 0⟩ = ([], some 1) :=
  ⟨by decide,
    (claim_C10_usage_errors_exit_1 false ["smell-baron", "-cf", "x"]
      ⟨true, [], false, fun _ => 0⟩).2 1 (by decide)⟩

end SmellBaron
